import Mathlib

/-!
Shallow embedding of `termsnake` (src/src/main.rs).

Coordinates are `u16` pairs in the source; we model them as `Nat × Nat`,
taking the `%\x20`-free additions modulo 2^16 where the source's release-mode
`u16` addition would wrap.  Fallible operations return `Except Unit _`
(Rust `Result<_, ()>`); panics (`unwrap`, `unreachable!`, `gen_range` on an
empty range, and the unbounded rejection-sampling loop of food placement,
which we fuel with an explicit list of RNG samples) are modelled by an outer
`Option`, `none` meaning the run aborts/diverges.
-/

namespace Termsnake

abbrev TermCoord := Nat × Nat

/-- The subset of `termion::event::Key` the program distinguishes: the four
arrows, character keys, and a catch-all for every other variant. -/
inductive Key where
  | Up
  | Down
  | Left
  | Right
  | char (c : Char)
  | other
deriving DecidableEq, Repr

/-- Background colors used by the renderer. -/
inductive Color where
  | red
  | blue
  | green
deriving DecidableEq, Repr

/-- One terminal cell operation: `ink` paints a cell's background
(`Game::ink`), `deInk` blanks it (`Game::de_ink`). -/
inductive Effect where
  | ink (pos : TermCoord) (c : Color)
  | deInk (pos : TermCoord)
deriving DecidableEq, Repr

/-- The game state: `Game` minus the terminal handle and the channel, which
carry no game data (the queue is passed explicitly to the loop model). -/
structure Game where
  snake : List TermCoord
  lastKey : Key
  food : TermCoord
  bounds : TermCoord
deriving DecidableEq, Repr

/-- Models `rand`'s `gen_range(lo..hi)`: uniform over the half-open range
`[lo, hi)`, driven by an arbitrary sample `seed`; `none` models the panic on
an empty range. -/
def genRange (lo hi seed : Nat) : Option Nat :=
  if lo < hi then some (lo + seed % (hi - lo)) else none

/-- `Game::generate_food_pos`: draw a candidate from
`(gen_range(10..bounds.0-10), gen_range(10..bounds.1-10))` and resample while
the candidate is in the snake.  The RNG is modelled by the list `seeds` of
sample pairs; `none` models the panic on a degenerate range or the rejection
loop never finding a free cell within the supplied samples. -/
def generate_food_pos (bounds : TermCoord) (snake : List TermCoord) :
    List (Nat × Nat) → Option TermCoord
  | [] => none
  | (s1, s2) :: rest =>
    match genRange 10 (bounds.1 - 10) s1, genRange 10 (bounds.2 - 10) s2 with
    | some c, some r =>
      if (c, r) ∈ snake then generate_food_pos bounds snake rest
      else some (c, r)
    | _, _ => none

/-- `Game::opposite`; `none` models the `unreachable!()` arm hit on a
non-arrow key. -/
def opposite : Key → Option Key
  | .Up => some .Down
  | .Down => some .Up
  | .Left => some .Right
  | .Right => some .Left
  | _ => none

/-- `Game::check_valid`: the four arrows and the `h`/`j`/`k`/`l` aliases are
accepted, everything else is an `Err(())`. -/
def check_valid (key : Key) : Except Unit Unit :=
  match key with
  | .Up | .Down | .Right | .Left => .ok ()
  | .char 'h' | .char 'j' | .char 'k' | .char 'l' => .ok ()
  | _ => .error ()

/-- `Game::as_direction_key`; `none` models the `unreachable!()` arm. -/
def as_direction_key : Key → Option Key
  | .Up | .char 'k' => some .Up
  | .Down | .char 'j' => some .Down
  | .Left | .char 'h' => some .Left
  | .Right | .char 'l' => some .Right
  | _ => none

/-- `Game::handle_key` on the committed heading `lastKey`: validate the key,
compute the opposite of the committed heading, normalize the key, and commit
the normalized direction unless it is that opposite.  The `Except` is the
function's `Result`, carrying the (possibly unchanged) committed heading;
the outer `Option` models the panics inside `opposite`/`as_direction_key`. -/
def handle_key (lastKey key : Key) : Option (Except Unit Key) :=
  match check_valid key with
  | .error _ => some (.error ())
  | .ok _ =>
    match opposite lastKey with
    | none => none
    | some opp =>
      match as_direction_key key with
      | none => none
      | some direction =>
        some (.ok (if direction = opp then lastKey else direction))

/-- `Game::valid_head`: the new head is rejected if a coordinate reaches the
bounds or the head is already in the body. -/
def valid_head (g : Game) (newHead : TermCoord) : Except Unit Unit :=
  if newHead.1 ≥ g.bounds.1 ∨ newHead.2 ≥ g.bounds.2 ∨ newHead ∈ g.snake then
    .error ()
  else
    .ok ()

/-- The `match self.last_key` block of `Game::update` that offsets the head:
`checked_sub` failures surface as `Err(())` (inner `Except`), `u16` addition
wraps modulo 2^16, and the `unreachable!()` arm on a non-arrow heading is the
outer `none`. -/
def step_head (key : Key) (h : TermCoord) : Option (Except Unit TermCoord) :=
  match key with
  | .Up => some (if h.2 = 0 then .error () else .ok (h.1, h.2 - 1))
  | .Down => some (.ok (h.1, (h.2 + 1) % 65536))
  | .Left => some (if h.1 = 0 then .error () else .ok (h.1 - 1, h.2))
  | .Right => some (.ok ((h.1 + 1) % 65536, h.2))
  | _ => none

/-- Outcome of one `Game::update` call: the returned `Result`, the game state
as left by the call (the source mutates `self` in place), and the terminal
cell operations issued, in order. -/
structure UpdateOut where
  result : Except Unit Unit
  g : Game
  effects : List Effect
deriving Repr

/-- `Game::update`, one tick of the state machine.  Mirrors the source line
by line: read the head (`unwrap` on an empty body is `none`); return `Err`
if the head's column or row is already `0`; offset the head along
`last_key`; treat an unmoved head as a no-op `Ok`; ink the old head blue;
validate the new head (on failure the body is untouched); ink the new head
red and push it; then either regenerate food (head landed on it) or pop and
blank the tail. -/
def update (g : Game) (seeds : List (Nat × Nat)) : Option UpdateOut :=
  match g.snake with
  | [] => none
  | oldHead :: _ =>
    if oldHead.1 = 0 ∨ oldHead.2 = 0 then
      some ⟨.error (), g, []⟩
    else
      match step_head g.lastKey oldHead with
      | none => none
      | some (.error _) => some ⟨.error (), g, []⟩
      | some (.ok newHead) =>
        if newHead = oldHead then
          some ⟨.ok (), g, []⟩
        else
          match valid_head g newHead with
          | .error _ => some ⟨.error (), g, [.ink oldHead .blue]⟩
          | .ok _ =>
            if newHead = g.food then
              match generate_food_pos g.bounds (newHead :: g.snake) seeds with
              | none => none
              | some food2 =>
                some ⟨.ok (), { g with snake := newHead :: g.snake, food := food2 },
                  [.ink oldHead .blue, .ink newHead .red, .ink food2 .green]⟩
            else
              match (newHead :: g.snake).getLast? with
              | none => none
              | some oldTail =>
                some ⟨.ok (), { g with snake := (newHead :: g.snake).dropLast },
                  [.ink oldHead .blue, .ink newHead .red, .deInk oldTail]⟩

/-- Whether the loop keeps running after a `Result`-returning call (`?`
propagates an `Err` out of `game_loop`). -/
def isRunning : Except Unit Unit → Bool
  | .ok _ => true
  | .error _ => false

/-- Outcome of one `game_loop` iteration: whether the loop continues, the
game state, the key events still queued on the channel, and the cell
operations issued. -/
structure TickOut where
  running : Bool
  g : Game
  queued : List Key
  effects : List Effect
deriving Repr

/-- One iteration of `Game::game_loop`: a single `try_recv` (at most one
queued key is consumed; an empty queue is the `Err(_) => {}` arm), then
`handle_key?` (whose `Err` exits the loop), then `update()?`.  The sleep has
no state effect and is omitted. -/
def game_loop_step (g : Game) (queued : List Key) (seeds : List (Nat × Nat)) :
    Option TickOut :=
  match queued with
  | [] =>
    match update g seeds with
    | none => none
    | some u => some ⟨isRunning u.result, u.g, [], u.effects⟩
  | k :: rest =>
    match handle_key g.lastKey k with
    | none => none
    | some (.error _) => some ⟨false, g, rest, []⟩
    | some (.ok lk) =>
      match update { g with lastKey := lk } seeds with
      | none => none
      | some u => some ⟨isRunning u.result, u.g, rest, u.effects⟩

/-- Follows the spec's words (§5), for comparison with `game_loop_step`:
drain ALL queued key events and apply the direction-resolution rule to each
in arrival order (invalid keys filtered silently), returning the resulting
committed heading. -/
def drainAllSpec (lastKey : Key) (queued : List Key) : Key :=
  queued.foldl
    (fun lk k =>
      match handle_key lk k with
      | some (.ok lk2) => lk2
      | _ => lk)
    lastKey

/-- The four arrow keys, the only values `last_key` is ever assigned. -/
def isArrow : Key → Bool
  | .Up | .Down | .Left | .Right => true
  | _ => false

/-- States reachable by the program: the initial state built by `Game::new`
(snake is the single center cell, heading `Right`, food freshly generated),
closed under successful `handle_key` resolutions and successful `update`
ticks. -/
inductive Reachable : Game → Prop where
  | init (bounds : TermCoord) (seeds : List (Nat × Nat)) (food : TermCoord)
      (hfood : generate_food_pos bounds [(bounds.1 / 2, bounds.2 / 2)] seeds
        = some food) :
      Reachable
        { snake := [(bounds.1 / 2, bounds.2 / 2)], lastKey := .Right,
          food := food, bounds := bounds }
  | key (g : Game) (k lk : Key) (hg : Reachable g)
      (hk : handle_key g.lastKey k = some (.ok lk)) :
      Reachable { g with lastKey := lk }
  | tick (g : Game) (seeds : List (Nat × Nat)) (u : UpdateOut)
      (hg : Reachable g) (hu : update g seeds = some u) :
      Reachable u.g

/-! ### Helper lemmas -/

theorem genRange_bounds {lo hi s c : Nat} (h : genRange lo hi s = some c) :
    lo ≤ c ∧ c < hi := by
  unfold genRange at h
  split at h
  · rename_i hlt
    cases h
    constructor
    · omega
    · have := Nat.mod_lt s (show 0 < hi - lo by omega)
      omega
  · cases h

theorem genRange_surj {lo hi c : Nat} (h1 : lo ≤ c) (h2 : c < hi) :
    genRange lo hi (c - lo) = some c := by
  unfold genRange
  rw [if_pos (by omega)]
  have : (c - lo) % (hi - lo) = c - lo := Nat.mod_eq_of_lt (by omega)
  rw [this]
  congr 1
  omega

theorem generate_food_pos_not_mem {b : TermCoord} {snake : List TermCoord}
    {seeds : List (Nat × Nat)} {f : TermCoord}
    (h : generate_food_pos b snake seeds = some f) : f ∉ snake := by
  induction seeds with
  | nil => simp [generate_food_pos] at h
  | cons s rest ih =>
    obtain ⟨s1, s2⟩ := s
    unfold generate_food_pos at h
    cases h1 : genRange 10 (b.1 - 10) s1 with
    | none => rw [h1] at h; cases h
    | some c =>
      cases h2 : genRange 10 (b.2 - 10) s2 with
      | none => rw [h1, h2] at h; cases h
      | some r =>
        rw [h1, h2] at h
        dsimp only at h
        split at h
        · exact ih h
        · rename_i hnotmem
          cases h
          exact hnotmem

theorem generate_food_pos_range {b : TermCoord} {snake : List TermCoord}
    {seeds : List (Nat × Nat)} {f : TermCoord}
    (h : generate_food_pos b snake seeds = some f) :
    10 ≤ f.1 ∧ f.1 + 10 < b.1 ∧ 10 ≤ f.2 ∧ f.2 + 10 < b.2 := by
  induction seeds with
  | nil => simp [generate_food_pos] at h
  | cons s rest ih =>
    obtain ⟨s1, s2⟩ := s
    unfold generate_food_pos at h
    cases h1 : genRange 10 (b.1 - 10) s1 with
    | none => rw [h1] at h; cases h
    | some c =>
      cases h2 : genRange 10 (b.2 - 10) s2 with
      | none => rw [h1, h2] at h; cases h
      | some r =>
        rw [h1, h2] at h
        dsimp only at h
        split at h
        · exact ih h
        · cases h
          have hc := genRange_bounds h1
          have hr := genRange_bounds h2
          dsimp only
          omega

theorem step_head_ne {k : Key} {h h2 : TermCoord}
    (hs : step_head k h = some (.ok h2)) : h2 ≠ h := by
  intro heq
  rw [heq] at hs
  clear heq
  obtain ⟨a, b⟩ := h
  cases k <;> simp only [step_head, Option.some.injEq] at hs
  case Up =>
    split at hs
    · exact Except.noConfusion hs
    · rename_i hz
      simp only [Except.ok.injEq, Prod.mk.injEq] at hs
      omega
  case Down =>
    simp only [Except.ok.injEq, Prod.mk.injEq] at hs
    omega
  case Left =>
    split at hs
    · exact Except.noConfusion hs
    · rename_i hz
      simp only [Except.ok.injEq, Prod.mk.injEq] at hs
      omega
  case Right =>
    simp only [Except.ok.injEq, Prod.mk.injEq] at hs
    omega
  case char => exact Option.noConfusion hs
  case other => exact Option.noConfusion hs

theorem step_head_arrow_ok {k : Key} {h : TermCoord} (ha : isArrow k = true)
    (h1 : h.1 ≠ 0) (h2 : h.2 ≠ 0) :
    ∃ h3, step_head k h = some (.ok h3) := by
  cases k <;> simp_all [isArrow, step_head]

theorem update_lastKey {g : Game} {seeds : List (Nat × Nat)} {u : UpdateOut}
    (hu : update g seeds = some u) : u.g.lastKey = g.lastKey := by
  unfold update at hu
  repeat' split at hu
  all_goals try exact Option.noConfusion hu
  all_goals (injection hu with hu; subst hu; rfl)

theorem valid_head_ok_not_mem {g : Game} {nh : TermCoord} {a : Unit}
    (h : valid_head g nh = .ok a) : nh ∉ g.snake := by
  unfold valid_head at h
  split at h
  · exact Except.noConfusion h
  · rename_i hc
    push_neg at hc
    exact hc.2.2

theorem valid_head_error_of {g : Game} {nh : TermCoord}
    (h : nh.1 ≥ g.bounds.1 ∨ nh.2 ≥ g.bounds.2 ∨ nh ∈ g.snake) :
    valid_head g nh = .error () := by
  unfold valid_head
  rw [if_pos h]

theorem update_nodup {g : Game} {seeds : List (Nat × Nat)} {u : UpdateOut}
    (hn : g.snake.Nodup) (hu : update g seeds = some u) : u.g.snake.Nodup := by
  unfold update at hu
  split at hu
  · exact Option.noConfusion hu
  · rename_i oldHead rest hsnake
    split at hu
    · injection hu with hu; subst hu; exact hn
    · split at hu
      · exact Option.noConfusion hu
      · injection hu with hu; subst hu; exact hn
      · rename_i newHead hstep
        split at hu
        · injection hu with hu; subst hu; exact hn
        · rename_i hne
          split at hu
          · injection hu with hu; subst hu; exact hn
          · rename_i a hvalid
            have hn2 : (newHead :: g.snake).Nodup :=
              List.nodup_cons.mpr ⟨valid_head_ok_not_mem hvalid, hn⟩
            split at hu
            · split at hu
              · exact Option.noConfusion hu
              · injection hu with hu; subst hu
                exact hn2
            · split at hu
              · exact Option.noConfusion hu
              · injection hu with hu; subst hu
                exact List.Nodup.sublist (List.dropLast_sublist _) hn2

theorem as_direction_key_arrow {k d : Key} (h : as_direction_key k = some d) :
    isArrow d = true := by
  unfold as_direction_key at h
  split at h <;> first
    | exact Option.noConfusion h
    | (injection h with h; subst h; rfl)

theorem handle_key_ok_arrow {lk k lk2 : Key} (ha : isArrow lk = true)
    (h : handle_key lk k = some (.ok lk2)) : isArrow lk2 = true := by
  unfold handle_key at h
  split at h
  · injection h with h
    exact Except.noConfusion h
  · split at h
    · exact Option.noConfusion h
    · split at h
      · exact Option.noConfusion h
      · rename_i hd
        injection h with h
        injection h with h
        subst h
        split
        · exact ha
        · exact as_direction_key_arrow hd

theorem isArrow_opposite_some {k : Key} (h : isArrow k = true) :
    opposite k ≠ none := by
  cases k <;> simp_all [opposite, isArrow]

theorem isArrow_step_head_some {k : Key} (h : isArrow k = true)
    (c : TermCoord) : step_head k c ≠ none := by
  cases k <;> simp_all [step_head, isArrow]

/-! ### Claim theorems -/

/-- C5: in every reachable game state no coordinate appears twice in the
snake body; the invariant survives every tick, including a tick that
detects a collision, because the colliding head is never pushed onto the
body. -/
theorem c5_snake_nodup (g : Game) (h : Reachable g) : g.snake.Nodup := by
  induction h with
  | init bounds seeds food hfood => exact List.nodup_singleton _
  | key g k lk hg hk ih => exact ih
  | tick g seeds u hg hu ih => exact update_nodup ih hu

/-- Witness for C5 at a concrete reachable state. -/
theorem c5_witness :
    (({ snake := [(20, 20)], lastKey := .Right, food := (10, 10),
        bounds := (40, 40) } : Game)).snake.Nodup :=
  c5_snake_nodup _ (Reachable.init (40, 40) [(0, 0)] (10, 10) (by rfl))

/-- C9: in every reachable state the committed heading `last_key` is one of
the four arrow keys, so neither the `unreachable!()` in `opposite` nor the
one in `update`'s heading match can execute. -/
theorem c9_lastKey_arrow (g : Game) (h : Reachable g) :
    isArrow g.lastKey = true ∧ opposite g.lastKey ≠ none ∧
      ∀ c : TermCoord, step_head g.lastKey c ≠ none := by
  have ha : isArrow g.lastKey = true := by
    induction h with
    | init bounds seeds food hfood => rfl
    | key g k lk hg hk ih => exact handle_key_ok_arrow ih hk
    | tick g seeds u hg hu ih =>
      rw [update_lastKey hu]
      exact ih
  exact ⟨ha, isArrow_opposite_some ha, fun c => isArrow_step_head_some ha c⟩

/-- Witness for C9 at a concrete reachable state. -/
theorem c9_witness :
    isArrow (({ snake := [(25, 25)], lastKey := .Right, food := (10, 10),
                bounds := (50, 50) } : Game)).lastKey = true ∧
      opposite (({ snake := [(25, 25)], lastKey := .Right, food := (10, 10),
                   bounds := (50, 50) } : Game)).lastKey ≠ none ∧
      ∀ c : TermCoord,
        step_head (({ snake := [(25, 25)], lastKey := .Right, food := (10, 10),
                      bounds := (50, 50) } : Game)).lastKey c ≠ none :=
  c9_lastKey_arrow _ (Reachable.init (50, 50) [(0, 0)] (10, 10) (by rfl))

/-- C1 counterexample: pressing an unrecognized key (here `q`) does NOT
leave the game running — the loop iteration reports `running = false`, i.e.
`handle_key`'s `Err` is propagated by `?` out of `game_loop`. -/
theorem c1_counterexample :
    (game_loop_step ⟨[(20, 10)], .Right, (30, 15), (40, 20)⟩
        [.char 'q'] []).map TickOut.running = some false := by
  rfl

/-- C1 amended: for every key event rejected by `check_valid`, the loop
iteration exits (`running = false`) with the whole game state — in
particular the committed heading — unchanged and no cell painted; the
unrecognized key is consumed from the queue. -/
theorem c1_exit_on_unrecognized (g : Game) (k : Key) (rest : List Key)
    (seeds : List (Nat × Nat)) (hk : check_valid k = .error ()) :
    game_loop_step g (k :: rest) seeds = some ⟨false, g, rest, []⟩ := by
  unfold game_loop_step handle_key
  dsimp only
  rw [hk]

/-- Witness for C1 at a concrete state and key. -/
theorem c1_witness :
    game_loop_step ⟨[(20, 10)], .Right, (30, 15), (40, 20)⟩ [.char 'q'] [] =
      some ⟨false, ⟨[(20, 10)], .Right, (30, 15), (40, 20)⟩, [], []⟩ :=
  c1_exit_on_unrecognized _ _ _ _ (by rfl)

/-- C2 counterexample: with two keys queued (`Up` then `Left`, heading
`Right`), the spec's drain-them-all rule commits `Left`, but the loop
iteration consumes only the first event: the committed heading after the
tick is `Up` and `Left` is still queued. -/
theorem c2_counterexample :
    drainAllSpec .Right [.Up, .Left] = .Left ∧
      (game_loop_step ⟨[(20, 10)], .Right, (10, 10), (40, 40)⟩
          [.Up, .Left] []).map (fun t => (t.g.lastKey, t.queued)) =
        some (.Up, [.Left]) :=
  ⟨rfl, rfl⟩

/-- C2 amended: each loop iteration polls the channel once (`try_recv`), so
at most ONE queued key event is consumed per tick; the rest stay queued.
The consumed key either resolves to the heading committed for this tick or
exits the loop if unrecognized. -/
theorem c2_single_event_per_tick (g : Game) (k : Key) (rest : List Key)
    (seeds : List (Nat × Nat)) (out : TickOut)
    (h : game_loop_step g (k :: rest) seeds = some out) :
    out.queued = rest ∧
      ((handle_key g.lastKey k = some (.error ()) ∧ out.g = g ∧
          out.running = false) ∨
        ∃ lk, handle_key g.lastKey k = some (.ok lk) ∧ out.g.lastKey = lk) := by
  unfold game_loop_step at h
  dsimp only at h
  split at h
  · exact Option.noConfusion h
  · rename_i e he
    injection h with h
    subst h
    cases e
    exact ⟨rfl, Or.inl ⟨he, rfl, rfl⟩⟩
  · rename_i lk hlk
    split at h
    · exact Option.noConfusion h
    · rename_i u hu
      injection h with h
      subst h
      exact ⟨rfl, Or.inr ⟨lk, hlk, update_lastKey hu⟩⟩

/-- Witness for C2 at a concrete state and queue. -/
theorem c2_witness :
    (⟨true, ⟨[(20, 9)], .Up, (10, 10), (40, 40)⟩, [Key.Left],
        [.ink (20, 10) .blue, .ink (20, 9) .red, .deInk (20, 10)]⟩ :
        TickOut).queued = [Key.Left] ∧
      ((handle_key Key.Right Key.Up = some (.error ()) ∧
          (⟨true, ⟨[(20, 9)], .Up, (10, 10), (40, 40)⟩, [Key.Left],
            [.ink (20, 10) .blue, .ink (20, 9) .red, .deInk (20, 10)]⟩ :
            TickOut).g = ⟨[(20, 10)], .Right, (10, 10), (40, 40)⟩ ∧
          (⟨true, ⟨[(20, 9)], .Up, (10, 10), (40, 40)⟩, [Key.Left],
            [.ink (20, 10) .blue, .ink (20, 9) .red, .deInk (20, 10)]⟩ :
            TickOut).running = false) ∨
        ∃ lk, handle_key Key.Right Key.Up = some (.ok lk) ∧
          (⟨true, ⟨[(20, 9)], .Up, (10, 10), (40, 40)⟩, [Key.Left],
            [.ink (20, 10) .blue, .ink (20, 9) .red, .deInk (20, 10)]⟩ :
            TickOut).g.lastKey = lk) :=
  c2_single_event_per_tick ⟨[(20, 10)], .Right, (10, 10), (40, 40)⟩ .Up
    [.Left] [] _ (by rfl)

/-- C3 counterexample: with head (1,5) and heading Left the tick does NOT
terminate: it returns `Ok` and commits the new head (0,5) (the degenerate
guard tests the OLD head's coordinates, which are nonzero here, and
`1.checked_sub(1)` succeeds with 0). -/
theorem c3_counterexample :
    update ⟨[(1, 5)], .Left, (10, 10), (40, 40)⟩ [] =
      some ⟨.ok (), ⟨[(0, 5)], .Left, (10, 10), (40, 40)⟩,
        [.ink (1, 5) .blue, .ink (0, 5) .red, .deInk (1, 5)]⟩ := by
  rfl

/-- C3 amended: for an arrow heading, the tick takes the degenerate early
exit (an `Err` issued before any cell is painted, body untouched) exactly
when the CURRENT head's column or row is already 0, regardless of whether
the heading would decrease that axis; head (1,5) moving Left instead
commits (0,5) and the degenerate exit fires one tick later. -/
theorem c3_degenerate_iff (oldHead : TermCoord) (rest : List TermCoord)
    (lk : Key) (food bounds : TermCoord) (seeds : List (Nat × Nat))
    (ha : isArrow lk = true) :
    update ⟨oldHead :: rest, lk, food, bounds⟩ seeds =
        some ⟨.error (), ⟨oldHead :: rest, lk, food, bounds⟩, []⟩ ↔
      oldHead.1 = 0 ∨ oldHead.2 = 0 := by
  constructor
  · intro h
    by_contra h0
    push_neg at h0
    obtain ⟨nh, hstep⟩ := step_head_arrow_ok (h := oldHead) ha h0.1 h0.2
    unfold update at h
    dsimp only at h
    rw [if_neg (by push_neg; exact h0)] at h
    rw [hstep] at h
    dsimp only at h
    rw [if_neg (step_head_ne hstep)] at h
    split at h
    · injection h with h
      simp at h
    · split at h
      · split at h
        · exact Option.noConfusion h
        · injection h with h
          simp at h
      · split at h
        · exact Option.noConfusion h
        · injection h with h
          simp at h
  · intro h0
    unfold update
    dsimp only
    rw [if_pos h0]

/-- Witness for C3 (amended) at a concrete state: head already at column 0. -/
theorem c3_witness :
    update ⟨[(0, 5)], .Right, (10, 10), (40, 40)⟩ [] =
      some ⟨.error (), ⟨[(0, 5)], .Right, (10, 10), (40, 40)⟩, []⟩ :=
  (c3_degenerate_iff (0, 5) [] .Right (10, 10) (40, 40) [] (by rfl)).mpr
    (Or.inl (by rfl))

/-- C4 counterexample: with bounds (40,40) the claim's inclusive upper edge
is column 40 − 10 = 30, but no RNG sample can ever produce a food candidate
with column 30: `gen_range(10..30)` is half-open. -/
theorem c4_counterexample :
    ¬ ∃ (seeds : List (Nat × Nat)) (r : Nat),
        generate_food_pos (40, 40) [] seeds = some (30, r) := by
  rintro ⟨seeds, r, h⟩
  have hr := generate_food_pos_range h
  dsimp only at hr
  omega

/-- C4 amended: every food candidate lies in the HALF-OPEN range
[10, bounds.col − 10) × [10, bounds.row − 10) — inclusively,
[10, bounds.col − 11] × [10, bounds.row − 11] — and every coordinate pair
in that range is a possible sample. -/
theorem c4_food_range :
    (∀ (b : TermCoord) (snake : List TermCoord) (seeds : List (Nat × Nat))
        (f : TermCoord), generate_food_pos b snake seeds = some f →
        10 ≤ f.1 ∧ f.1 + 10 < b.1 ∧ 10 ≤ f.2 ∧ f.2 + 10 < b.2) ∧
      (∀ (b : TermCoord) (c r : Nat), 10 ≤ c → c + 10 < b.1 → 10 ≤ r →
        r + 10 < b.2 →
        ∃ seeds, generate_food_pos b [] seeds = some (c, r)) := by
  constructor
  · exact fun b snake seeds f h => generate_food_pos_range h
  · intro b c r hc1 hc2 hr1 hr2
    refine ⟨[(c - 10, r - 10)], ?_⟩
    unfold generate_food_pos
    rw [genRange_surj hc1 (by omega), genRange_surj hr1 (by omega)]
    simp

/-- Witness for C4 (amended) at concrete bounds and coordinates. -/
theorem c4_witness :
    (10 ≤ 10 ∧ 10 + 10 < 40 ∧ 10 ≤ 10 ∧ 10 + 10 < 40) ∧
      ∃ seeds, generate_food_pos (40, 40) [] seeds = some (15, 25) :=
  ⟨c4_food_range.1 (40, 40) [(20, 20)] [(0, 0)] (10, 10) (by rfl),
    c4_food_range.2 (40, 40) 15 25 (by decide) (by decide) (by decide)
      (by decide)⟩

/-- C6: on every successful moving tick, if the new head misses the food the
body length is preserved (tail popped) and the food is untouched; if the new
head lands on the food the body grows by exactly one, the food field is the
result of exactly one fresh `generate_food_pos` call over the post-tick
body, and that new food is not in the post-tick body. -/
theorem c6_growth (oldHead : TermCoord) (rest : List TermCoord) (lk : Key)
    (food bounds : TermCoord) (seeds : List (Nat × Nat)) (u : UpdateOut)
    (newHead : TermCoord)
    (hstep : step_head lk oldHead = some (.ok newHead))
    (hu : update ⟨oldHead :: rest, lk, food, bounds⟩ seeds = some u)
    (hok : u.result = .ok ()) :
    (newHead = food →
      u.g.snake.length = (oldHead :: rest).length + 1 ∧
        generate_food_pos bounds (newHead :: oldHead :: rest) seeds
          = some u.g.food ∧
        u.g.food ∉ u.g.snake) ∧
    (newHead ≠ food →
      u.g.snake.length = (oldHead :: rest).length ∧ u.g.food = food) := by
  unfold update at hu
  dsimp only at hu
  split at hu
  · injection hu with hu
    subst hu
    exact absurd hok (by simp)
  · rw [hstep] at hu
    dsimp only at hu
    rw [if_neg (step_head_ne hstep)] at hu
    split at hu
    · injection hu with hu
      subst hu
      exact absurd hok (by simp)
    · split at hu
      · rename_i hfood
        split at hu
        · exact Option.noConfusion hu
        · rename_i food2 hgen
          injection hu with hu
          subst hu
          refine ⟨fun _ => ⟨by simp, hgen, generate_food_pos_not_mem hgen⟩,
            fun hne => absurd hfood hne⟩
      · rename_i hfood
        split at hu
        · exact Option.noConfusion hu
        · rename_i oldTail hlast
          injection hu with hu
          subst hu
          refine ⟨fun heq => absurd heq hfood, fun _ => ⟨?_, rfl⟩⟩
          simp [List.length_dropLast]

/-- Witness for C6 at a concrete food-landing tick. -/
theorem c6_witness :
    ([(21, 10), (20, 10)] : List TermCoord).length
        = ([(20, 10)] : List TermCoord).length + 1 ∧
      generate_food_pos (40, 40) [(21, 10), (20, 10)] [(0, 0)]
        = some ((10, 10) : TermCoord) ∧
      ((10, 10) : TermCoord) ∉ ([(21, 10), (20, 10)] : List TermCoord) :=
  (c6_growth (20, 10) [] .Right (21, 10) (40, 40) [(0, 0)]
      ⟨.ok (), ⟨[(21, 10), (20, 10)], .Right, (10, 10), (40, 40)⟩,
        [.ink (20, 10) .blue, .ink (21, 10) .red, .ink (10, 10) .green]⟩
      (21, 10) (by rfl) (by rfl) (by rfl)).1 (by rfl)

/-- C7: when the computed new head reaches the bounds on either axis or is
already in the body, the tick returns `Err` with the body (indeed the whole
state) unmodified — the illegal head is never committed; the only cell
operation is the blue repaint of the old head. -/
theorem c7_collision (oldHead : TermCoord) (rest : List TermCoord) (lk : Key)
    (food bounds : TermCoord) (seeds : List (Nat × Nat)) (newHead : TermCoord)
    (h1 : oldHead.1 ≠ 0) (h2 : oldHead.2 ≠ 0)
    (hstep : step_head lk oldHead = some (.ok newHead))
    (hbad : newHead.1 ≥ bounds.1 ∨ newHead.2 ≥ bounds.2 ∨
      newHead ∈ oldHead :: rest) :
    update ⟨oldHead :: rest, lk, food, bounds⟩ seeds =
      some ⟨.error (), ⟨oldHead :: rest, lk, food, bounds⟩,
        [.ink oldHead .blue]⟩ := by
  unfold update
  dsimp only
  rw [if_neg (by push_neg; exact ⟨h1, h2⟩), hstep]
  dsimp only
  rw [if_neg (step_head_ne hstep),
    valid_head_error_of (g := ⟨oldHead :: rest, lk, food, bounds⟩) hbad]

/-- Witness for C7: the spec's scenario — head (39,10), bounds (40,20),
heading Right, new head (40,10) is out of bounds. -/
theorem c7_witness :
    update ⟨[(39, 10)], .Right, (20, 12), (40, 20)⟩ [] =
      some ⟨.error (), ⟨[(39, 10)], .Right, (20, 12), (40, 20)⟩,
        [.ink (39, 10) .blue]⟩ :=
  c7_collision (39, 10) [] .Right (20, 12) (40, 20) [] (40, 10) (by decide)
    (by decide) (by rfl) (Or.inl (by decide))

/-- C8: for a committed arrow heading with geometric opposite `o`, every
accepted key normalizing to direction `d` leaves the committed heading
unchanged when `d = o` and commits `d` otherwise. -/
theorem c8_reversal (h o key d : Key) (hop : opposite h = some o)
    (hv : check_valid key = .ok ()) (hd : as_direction_key key = some d) :
    handle_key h key = some (.ok (if d = o then h else d)) := by
  unfold handle_key
  rw [hv, hop, hd]

/-- Witness for C8: heading Right, key `h` (alias for Left = opposite of
Right) is silently ignored. -/
theorem c8_witness : handle_key .Right (.char 'h') = some (.ok .Right) :=
  c8_reversal .Right .Left (.char 'h') .Left (by rfl) (by rfl) (by rfl)

/-- C10: on a tick that fails head validation (wall or self collision), the
old head has already been repainted blue before `valid_head` runs: the
failing tick emits that paint operation even though the body is left
unmodified. -/
theorem c10_blue_paint (oldHead : TermCoord) (rest : List TermCoord)
    (lk : Key) (food bounds : TermCoord) (seeds : List (Nat × Nat))
    (newHead : TermCoord) (h1 : oldHead.1 ≠ 0) (h2 : oldHead.2 ≠ 0)
    (hstep : step_head lk oldHead = some (.ok newHead))
    (hv : valid_head ⟨oldHead :: rest, lk, food, bounds⟩ newHead
      = .error ()) :
    ∃ u, update ⟨oldHead :: rest, lk, food, bounds⟩ seeds = some u ∧
      u.result = .error () ∧ u.g.snake = oldHead :: rest ∧
      Effect.ink oldHead .blue ∈ u.effects := by
  refine ⟨⟨.error (), ⟨oldHead :: rest, lk, food, bounds⟩,
    [.ink oldHead .blue]⟩, ?_, rfl, rfl, by simp⟩
  unfold update
  dsimp only
  rw [if_neg (by push_neg; exact ⟨h1, h2⟩), hstep]
  dsimp only
  rw [if_neg (step_head_ne hstep), hv]

/-- Witness for C10 at a concrete self-collision tick. -/
theorem c10_witness :
    ∃ u, update ⟨[(5, 5), (5, 6)], .Down, (10, 10), (40, 40)⟩ [] = some u ∧
      u.result = .error () ∧ u.g.snake = [(5, 5), (5, 6)] ∧
      Effect.ink (5, 5) .blue ∈ u.effects :=
  c10_blue_paint (5, 5) [(5, 6)] .Down (10, 10) (40, 40) [] (5, 6)
    (by decide) (by decide) (by rfl) (by rfl)

end Termsnake
